import Mathlib

/-!
Verification of the cleaning-duty rotation scheduler of
`phongvtVHEC/express-authentication`.

The repository's `src/routes/routes.js` is a thin Express route table with
swagger documentation; the scheduler itself (roster, rotation state, engine,
coordinator) is described by the specification.  The route table is embedded
directly from `routes.js`; the scheduler components are modelled from the
spec, as indicated on each definition.
-/

namespace CleaningDuty

/-- Modelled from the spec: a Period is a (year, month) calendar key
identifying one scheduling cycle. -/
structure Period where
  year : Nat
  month : Nat
deriving DecidableEq, Repr

/-- Modelled from the spec: a Duty has an identifier and a relative weight
(default 1); the source repository contains no duty catalog, so duties are
identified by a numeric id. -/
structure Duty where
  id : Nat
  weight : Nat
deriving DecidableEq, Repr

/-- Modelled from the spec: RotationState holds, per duty, a rotation cursor
into the roster ordering, and per user a cumulative assigned-weight counter.
Absent state is cursor 0 / zero counters for every duty and user. -/
structure RotationState where
  cursor : Nat → Nat
  counter : Nat → Nat

/-- Modelled from the spec: scheduler configuration; `exclusive` is the
policy that a user may hold at most one duty per period (default on). -/
structure Config where
  exclusive : Bool
deriving DecidableEq, Repr

/-- Modelled from the spec: the typed failure conditions of the Engine:
`insufficientRoster` ("no eligible users") and `unsatisfiable`
("insufficient users for exclusive assignment"). -/
inductive SchedError where
  | insufficientRoster
  | unsatisfiable
deriving DecidableEq, Repr

/-- Sort key of a candidate: (cumulative-weight counter,
distance-from-cursor, user identifier), compared lexicographically. -/
abbrev Key := Nat × Nat × Nat

/-- Strict lexicographic order on candidate keys. -/
def keyLt (a b : Key) : Prop :=
  a.1 < b.1 ∨ (a.1 = b.1 ∧ (a.2.1 < b.2.1 ∨ (a.2.1 = b.2.1 ∧ a.2.2 < b.2.2)))

/-- Lexicographic order (reflexive) on candidate keys. -/
def keyLe (a b : Key) : Prop :=
  a.1 < b.1 ∨ (a.1 = b.1 ∧ (a.2.1 < b.2.1 ∨ (a.2.1 = b.2.1 ∧ a.2.2 ≤ b.2.2)))

instance (a b : Key) : Decidable (keyLt a b) :=
  decidable_of_iff
    (a.1 < b.1 ∨ (a.1 = b.1 ∧ (a.2.1 < b.2.1 ∨ (a.2.1 = b.2.1 ∧ a.2.2 < b.2.2))))
    Iff.rfl

instance (a b : Key) : Decidable (keyLe a b) :=
  decidable_of_iff
    (a.1 < b.1 ∨ (a.1 = b.1 ∧ (a.2.1 < b.2.1 ∨ (a.2.1 = b.2.1 ∧ a.2.2 ≤ b.2.2))))
    Iff.rfl

/-- Modelled from the spec: the per-duty cursor is re-derived (wrapped) from
the stored value before use, so a roster that shrank since the cursor was
set can never be dereferenced out of bounds. -/
def effectiveCursor (st : RotationState) (roster : List Nat) (d : Duty) : Nat :=
  st.cursor d.id % roster.length

/-- Modelled from the spec: candidate sort key for duty `d` and user `u`:
ascending cumulative-weight counter, then ascending distance from the duty's
rotation cursor in roster order (wrapping), then ascending user id. -/
def dutyKey (st : RotationState) (roster : List Nat) (d : Duty) (u : Nat) : Key :=
  (st.counter u,
   (roster.indexOf u + roster.length - effectiveCursor st roster d) % roster.length,
   u)

/-- One step of minimum selection: keep the strictly better candidate. -/
def better (k : Nat → Key) (best v : Nat) : Nat :=
  if keyLt (k v) (k best) then v else best

/-- First minimum of a candidate list under the key order `k`
(equivalently: the head of the list sorted by `k`). -/
def pickMin (k : Nat → Key) : List Nat → Option Nat
  | [] => none
  | u :: us => some (us.foldl (better k) u)

/-- Modelled from the spec: candidate list for a duty = roster filtered to
users not excluded (all users eligible unless explicitly excluded). -/
def candidates (roster ex : List Nat) : List Nat :=
  roster.filter (fun u => !(decide (u ∈ ex)))

/-- Modelled from the spec: the duty's assignee is the first element of the
candidate list ordered by `dutyKey`. -/
def selectAssignee (st : RotationState) (roster ex : List Nat) (d : Duty) :
    Option Nat :=
  pickMin (dutyKey st roster d) (candidates roster ex)

/-- Modelled from the spec: after assigning duty `d` to user `u`, advance
the duty's cursor to the roster position following the assignee (wrapping)
and add the duty's weight to the assignee's cumulative counter. -/
def commitDuty (st : RotationState) (roster : List Nat) (d : Duty) (u : Nat) :
    RotationState :=
  { cursor := fun i => if i = d.id then (roster.indexOf u + 1) % roster.length
              else st.cursor i,
    counter := fun v => if v = u then st.counter v + d.weight else st.counter v }

/-- Modelled from the spec: the Engine's per-duty loop.  For each duty it
selects the first candidate, records the assignment, updates rotation state,
and (under the exclusivity policy) excludes the assignee from candidacy for
the remaining duties of the period. -/
def assignLoop (roster : List Nat) (cfg : Config) :
    List Duty → RotationState → List Nat → List (Nat × Nat) →
    Except SchedError (List (Nat × Nat) × RotationState)
  | [], st, _, acc => .ok (acc.reverse, st)
  | d :: ds, st, ex, acc =>
    match selectAssignee st roster ex d with
    | none => .error .unsatisfiable
    | some u =>
        assignLoop roster cfg ds (commitDuty st roster d u)
          (if cfg.exclusive then u :: ex else ex) ((d.id, u) :: acc)

/-- Modelled from the spec: `computeAssignments(period, roster, duties,
rotationState) -> (assignments, updatedRotationState)`; fails with an
explicit condition on an empty roster, or when duties outnumber users under
the exclusivity policy. -/
def computeAssignments (roster : List Nat) (duties : List Duty)
    (st : RotationState) (cfg : Config) :
    Except SchedError (List (Nat × Nat) × RotationState) :=
  if roster.isEmpty then
    .error .insufficientRoster
  else if cfg.exclusive && decide (roster.length < duties.length) then
    .error .unsatisfiable
  else
    assignLoop roster cfg duties st [] []

/-- Modelled from the spec: the persisted state the Coordinator owns: the
Assignment Ledger of committed (period, duty, user) records, the rotation
state, and the ArrangementRecord commit flags (the list of committed
periods). -/
structure Store where
  ledger : List (Period × Nat × Nat)
  rotation : RotationState
  records : List Period

/-- Whether a period's ArrangementRecord carries the commit flag. -/
def committed (s : Store) (p : Period) : Bool :=
  decide (p ∈ s.records)

/-- Modelled from the spec: `getAssignments(period)`: pure read of the
ledger; empty if the period was never arranged. -/
def getAssignments (s : Store) (p : Period) : List (Nat × Nat) :=
  (s.ledger.filter (fun e => decide (e.1 = p))).map (fun e => e.2)

/-- The duty ids assigned in the ledger for a period. -/
def periodDuties (s : Store) (p : Period) : List Nat :=
  (s.ledger.filter (fun e => decide (e.1 = p))).map (fun e => e.2.1)

/-- The user ids assigned in the ledger for a period. -/
def periodUsers (s : Store) (p : Period) : List Nat :=
  (s.ledger.filter (fun e => decide (e.1 = p))).map (fun e => e.2.2)

/-- Result of an arrange call: the period's assignments and whether this
call freshly computed them. -/
structure ArrangementResult where
  assignments : List (Nat × Nat)
  freshlyComputed : Bool
deriving DecidableEq, Repr

/-- Modelled from the spec: `arrange(period)`: idempotent at the period
granularity.  If the period is already committed it returns the existing
assignments with the no-new-computation flag; otherwise it invokes the
Engine and on success commits ledger entries, rotation state and the
ArrangementRecord atomically; on failure it returns the typed error and no
new store. -/
def arrange (cfg : Config) (rosterOf : Period → List Nat) (duties : List Duty)
    (s : Store) (p : Period) :
    Except SchedError (ArrangementResult × Store) :=
  if committed s p then
    .ok ({ assignments := getAssignments s p, freshlyComputed := false }, s)
  else
    match computeAssignments (rosterOf p) duties s.rotation cfg with
    | .error e => .error e
    | .ok (asg, st') =>
        .ok ({ assignments := asg, freshlyComputed := true },
             { ledger := s.ledger ++ asg.map (fun a => (p, a)),
               rotation := st',
               records := p :: s.records })

end CleaningDuty

namespace Routes

/-- HTTP method of a route registration in `src/routes/routes.js`. -/
inductive Method where
  | get
  | post
  | put
  | del
deriving DecidableEq, Repr

/-- One route of `src/routes/routes.js`: method, path, and the response
status codes documented in its swagger block. -/
structure Route where
  method : Method
  path : String
  responses : List Nat
deriving DecidableEq, Repr

/-- The complete route surface registered in `src/routes/routes.js`, in
source order, each with its swagger-documented response codes. -/
def routes : List Route :=
  [⟨.post, "/api/auth/login", [200, 401]⟩,
   ⟨.post, "/api/auth/register", [200, 409, 500]⟩,
   ⟨.get, "/api/users", [200, 500]⟩,
   ⟨.get, "/api/users/:id", [200, 404, 500]⟩,
   ⟨.put, "/api/users/update-avatar", [204, 400, 404, 500]⟩,
   ⟨.put, "/api/users", [204, 400, 500]⟩,
   ⟨.post, "/api/auth/refresh-token", [200, 403]⟩,
   ⟨.post, "/api/cleaning-duties/arrange", [200, 500]⟩,
   ⟨.get, "/api/cleaning-duties/:year/:month", [200, 400, 500]⟩,
   ⟨.post, "/api/devices", [201, 500]⟩,
   ⟨.del, "/api/devices", [200, 500]⟩]

end Routes

namespace CleaningDuty

theorem keyLe_refl (a : Key) : keyLe a a := by
  simp [keyLe]

theorem keyLe_trans {a b c : Key} (h1 : keyLe a b) (h2 : keyLe b c) :
    keyLe a c := by
  simp only [keyLe] at *
  omega

theorem keyLt_le {a b : Key} (h : keyLt a b) : keyLe a b := by
  simp only [keyLt, keyLe] at *
  omega

theorem keyLe_of_not_lt {a b : Key} (h : ¬ keyLt a b) : keyLe b a := by
  simp only [keyLt, keyLe] at *
  omega

theorem better_le_left (k : Nat → Key) (b v : Nat) :
    keyLe (k (better k b v)) (k b) := by
  unfold better
  split
  · exact keyLt_le ‹_›
  · exact keyLe_refl _

theorem better_le_right (k : Nat → Key) (b v : Nat) :
    keyLe (k (better k b v)) (k v) := by
  unfold better
  split
  · exact keyLe_refl _
  · exact keyLe_of_not_lt ‹_›

theorem foldl_better_mem (k : Nat → Key) (l : List Nat) (b : Nat) :
    l.foldl (better k) b = b ∨ l.foldl (better k) b ∈ l := by
  induction l generalizing b with
  | nil => exact Or.inl rfl
  | cons v t ih =>
    simp only [List.foldl_cons]
    rcases ih (better k b v) with h | h
    · rw [h]
      unfold better
      split
      · exact Or.inr (List.mem_cons_self _ _)
      · exact Or.inl rfl
    · exact Or.inr (List.mem_cons_of_mem _ h)

theorem foldl_better_le (k : Nat → Key) (l : List Nat) (b : Nat) :
    keyLe (k (l.foldl (better k) b)) (k b) ∧
      ∀ v ∈ l, keyLe (k (l.foldl (better k) b)) (k v) := by
  induction l generalizing b with
  | nil => exact ⟨keyLe_refl _, by simp⟩
  | cons v t ih =>
    simp only [List.foldl_cons]
    obtain ⟨h1, h2⟩ := ih (better k b v)
    refine ⟨keyLe_trans h1 (better_le_left k b v), ?_⟩
    intro w hw
    rcases List.mem_cons.mp hw with rfl | hw
    · exact keyLe_trans h1 (better_le_right k b w)
    · exact h2 w hw

theorem pickMin_mem {k : Nat → Key} {l : List Nat} {u : Nat}
    (h : pickMin k l = some u) : u ∈ l := by
  cases l with
  | nil => simp [pickMin] at h
  | cons b t =>
    simp only [pickMin, Option.some.injEq] at h
    subst h
    rcases foldl_better_mem k t b with h | h
    · rw [h]; exact List.mem_cons_self _ _
    · exact List.mem_cons_of_mem _ h

theorem pickMin_le {k : Nat → Key} {l : List Nat} {u : Nat}
    (h : pickMin k l = some u) : ∀ v ∈ l, keyLe (k u) (k v) := by
  cases l with
  | nil => simp [pickMin] at h
  | cons b t =>
    simp only [pickMin, Option.some.injEq] at h
    subst h
    obtain ⟨h1, h2⟩ := foldl_better_le k t b
    intro v hv
    rcases List.mem_cons.mp hv with rfl | hv
    · exact h1
    · exact h2 v hv

theorem mem_candidates {roster ex : List Nat} {u : Nat}
    (h : u ∈ candidates roster ex) : u ∈ roster ∧ u ∉ ex := by
  have := List.mem_filter.mp h
  simpa using this

theorem assignLoop_fst (roster : List Nat) (cfg : Config) :
    ∀ (ds : List Duty) (st : RotationState) (ex : List Nat)
      (acc asg : List (Nat × Nat)) (st' : RotationState),
      assignLoop roster cfg ds st ex acc = .ok (asg, st') →
      asg.map Prod.fst = (acc.map Prod.fst).reverse ++ ds.map Duty.id := by
  intro ds
  induction ds with
  | nil =>
    intro st ex acc asg st' h
    simp only [assignLoop, Except.ok.injEq, Prod.mk.injEq] at h
    obtain ⟨rfl, rfl⟩ := h
    simp
  | cons d t ih =>
    intro st ex acc asg st' h
    simp only [assignLoop] at h
    split at h
    · exact absurd h (by simp)
    · have := ih _ _ _ _ _ h
      simpa using this

theorem assignLoop_snd_nodup (roster : List Nat) (cfg : Config)
    (hx : cfg.exclusive = true) :
    ∀ (ds : List Duty) (st : RotationState) (ex : List Nat)
      (acc asg : List (Nat × Nat)) (st' : RotationState),
      (∀ u ∈ acc.map Prod.snd, u ∈ ex) → (acc.map Prod.snd).Nodup →
      assignLoop roster cfg ds st ex acc = .ok (asg, st') →
      (asg.map Prod.snd).Nodup := by
  intro ds
  induction ds with
  | nil =>
    intro st ex acc asg st' hsub hnd h
    simp only [assignLoop, Except.ok.injEq, Prod.mk.injEq] at h
    obtain ⟨rfl, rfl⟩ := h
    simpa using hnd
  | cons d t ih =>
    intro st ex acc asg st' hsub hnd h
    simp only [assignLoop] at h
    split at h
    · exact absurd h (by simp)
    · next u hu =>
      rw [hx] at h
      simp only [if_pos rfl] at h
      have humem := mem_candidates (pickMin_mem hu)
      refine ih _ _ _ _ _ ?_ ?_ h
      · intro v hv
        simp only [List.map_cons, List.mem_cons] at hv
        rcases hv with rfl | hv
        · exact List.mem_cons_self _ _
        · exact List.mem_cons_of_mem _ (hsub v hv)
      · simp only [List.map_cons, List.nodup_cons]
        exact ⟨fun hc => humem.2 (hsub u hc), hnd⟩

theorem arrange_committed_after {cfg : Config} {ro : Period → List Nat}
    {du : List Duty} {s : Store} {p : Period} {r1 : ArrangementResult}
    {s1 : Store} (h : arrange cfg ro du s p = .ok (r1, s1)) :
    committed s1 p = true := by
  unfold arrange at h
  split at h
  · next hcm =>
    simp only [Except.ok.injEq, Prod.mk.injEq] at h
    obtain ⟨-, rfl⟩ := h
    exact hcm
  · split at h
    · exact absurd h (by simp)
    · simp only [Except.ok.injEq, Prod.mk.injEq] at h
      obtain ⟨-, rfl⟩ := h
      simp [committed]

theorem filter_pair_fst (p : Period) (asg : List (Nat × Nat)) :
    ((asg.map (fun a => (p, a))).filter (fun e => decide (e.1 = p))).map
      (fun e => e.2.1) = asg.map Prod.fst := by
  induction asg with
  | nil => rfl
  | cons a t ih => simp [ih]

theorem filter_pair_snd (p : Period) (asg : List (Nat × Nat)) :
    ((asg.map (fun a => (p, a))).filter (fun e => decide (e.1 = p))).map
      (fun e => e.2.2) = asg.map Prod.snd := by
  induction asg with
  | nil => rfl
  | cons a t ih => simp [ih]

theorem ledger_filter_nil {l : List (Period × Nat × Nat)} {p : Period}
    (hled : ∀ e ∈ l, e.1 ≠ p) :
    l.filter (fun e => decide (e.1 = p)) = [] := by
  induction l with
  | nil => rfl
  | cons e t ih =>
    have h1 : e.1 ≠ p := hled e (List.mem_cons_self _ _)
    have h2 : ∀ x ∈ t, x.1 ≠ p := fun x hx => hled x (List.mem_cons_of_mem _ hx)
    simp only [List.filter_cons, decide_eq_true_eq]
    rw [if_neg (by simpa using h1)]
    exact ih h2

theorem arrange_fresh_elim {cfg : Config} {ro : Period → List Nat}
    {du : List Duty} {s : Store} {p : Period} {r : ArrangementResult}
    {s' : Store} (hfresh : committed s p = false) (hne : ro p ≠ [])
    (h : arrange cfg ro du s p = .ok (r, s')) :
    ∃ asg st', assignLoop (ro p) cfg du s.rotation [] [] = .ok (asg, st') ∧
      r = { assignments := asg, freshlyComputed := true } ∧
      s' = { ledger := s.ledger ++ asg.map (fun a => (p, a)),
             rotation := st', records := p :: s.records } := by
  unfold arrange at h
  split at h
  · next hcm => rw [hfresh] at hcm; exact absurd hcm (by simp)
  · unfold computeAssignments at h
    rw [if_neg (by simpa using hne)] at h
    split at h
    · simp at h
    · rename_i asg st' heq
      simp only [Except.ok.injEq, Prod.mk.injEq] at h
      obtain ⟨rfl, rfl⟩ := h
      split at heq
      · exact absurd heq (by simp)
      · exact ⟨asg, st', heq, rfl, rfl⟩

/-- Example configuration: exclusivity policy enabled (the spec default). -/
def exCfg : Config := ⟨true⟩

/-- Example duty "kitchen" (id 0, weight 1). -/
def kitchen : Duty := ⟨0, 1⟩

/-- Example duty "bathroom" (id 1, weight 1). -/
def bathroom : Duty := ⟨1, 1⟩

/-- Example duty catalog. -/
def exDuties : List Duty := [kitchen, bathroom]

/-- Example roster [A, B, C] as user ids 1, 2, 3, the same for every
period. -/
def exRosterOf : Period → List Nat := fun _ => [1, 2, 3]

/-- Absent rotation state: cursor 0 and zero counters for everything. -/
def rotation0 : RotationState := ⟨fun _ => 0, fun _ => 0⟩

/-- Initial store: empty ledger, absent rotation state, nothing
committed. -/
def exStore0 : Store := ⟨[], rotation0, []⟩

/-- Example period (2024, 1). -/
def exP1 : Period := ⟨2024, 1⟩

/-- Example period (2024, 2). -/
def exP2 : Period := ⟨2024, 2⟩

/-- Outcome of arranging (2024, 1) from the initial store. -/
def afterFirst : Except SchedError (ArrangementResult × Store) :=
  arrange exCfg exRosterOf exDuties exStore0 exP1

/-- The result of the first example arrangement. -/
def exRes1 : ArrangementResult :=
  match afterFirst with
  | .ok (r, _) => r
  | .error _ => ⟨[], false⟩

/-- The store after the first example arrangement. -/
def exStore1 : Store :=
  match afterFirst with
  | .ok (_, s) => s
  | .error _ => exStore0

/-- Outcome of arranging (2024, 2) next. -/
def afterSecond : Except SchedError (ArrangementResult × Store) :=
  arrange exCfg exRosterOf exDuties exStore1 exP2

/-- The result of the second example arrangement. -/
def exRes2 : ArrangementResult :=
  match afterSecond with
  | .ok (r, _) => r
  | .error _ => ⟨[], false⟩

/-- The store after the second example arrangement. -/
def exStore2 : Store :=
  match afterSecond with
  | .ok (_, s) => s
  | .error _ => exStore1

/-- A roster provider that supplies nobody. -/
def emptyRosterOf : Period → List Nat := fun _ => []

/-- Claim C1: arrange is idempotent at the period granularity: after one
successful arrange(P), the period is committed, so a second arrange(P)
returns the stored committed assignments with the flag indicating that no
new computation occurred and leaves the store unchanged — the arrangement
is not silently redone. -/
theorem arrange_idempotent (cfg : Config) (ro : Period → List Nat)
    (du : List Duty) (s : Store) (p : Period) (r1 : ArrangementResult)
    (s1 : Store) (h : arrange cfg ro du s p = .ok (r1, s1)) :
    arrange cfg ro du s1 p =
      .ok ({ assignments := getAssignments s1 p, freshlyComputed := false },
        s1) := by
  have hc := arrange_committed_after h
  unfold arrange
  rw [hc]
  simp

theorem arrange_idempotent_witness :
    arrange exCfg exRosterOf exDuties exStore1 exP1 =
      .ok ({ assignments := getAssignments exStore1 exP1,
             freshlyComputed := false }, exStore1) :=
  arrange_idempotent exCfg exRosterOf exDuties exStore0 exP1 exRes1 exStore1
    rfl

/-- Claim C2: for a period freshly committed from a non-empty roster, the
Assignment Ledger holds exactly one assignment per duty of the catalog —
never zero and never a duplicate entry for the same duty in that period. -/
theorem arrange_coverage (cfg : Config) (ro : Period → List Nat)
    (du : List Duty) (s : Store) (p : Period) (r : ArrangementResult)
    (s' : Store) (hled : ∀ e ∈ s.ledger, e.1 ≠ p)
    (hnd : (du.map Duty.id).Nodup) (hfresh : committed s p = false)
    (hne : ro p ≠ []) (h : arrange cfg ro du s p = .ok (r, s')) :
    ∀ d ∈ du, (periodDuties s' p).count d.id = 1 := by
  obtain ⟨asg, st', hloop, -, rfl⟩ := arrange_fresh_elim hfresh hne h
  have hfst := assignLoop_fst (ro p) cfg du s.rotation [] [] asg st' hloop
  intro d hd
  have hPD : periodDuties
      { ledger := s.ledger ++ asg.map (fun a => (p, a)),
        rotation := st', records := p :: s.records } p = du.map Duty.id := by
    unfold periodDuties
    simp only [List.filter_append, List.map_append]
    rw [ledger_filter_nil hled, filter_pair_fst]
    simpa using hfst
  rw [hPD]
  exact List.count_eq_one_of_mem hnd (List.mem_map_of_mem Duty.id hd)

theorem arrange_coverage_witness :
    (periodDuties exStore1 exP1).count kitchen.id = 1 :=
  arrange_coverage exCfg exRosterOf exDuties exStore0 exP1 exRes1 exStore1
    (by simp [exStore0]) (by decide) rfl (by decide) rfl kitchen (by decide)

/-- Claim C3: with the exclusivity policy enabled and a roster at least as
large as the duty catalog, a freshly committed period assigns no user more
than one duty: each selected user is excluded from candidacy for every
other duty of the period, so the period's assignee list has no
duplicates. -/
theorem arrange_exclusive (cfg : Config) (ro : Period → List Nat)
    (du : List Duty) (s : Store) (p : Period) (r : ArrangementResult)
    (s' : Store) (hx : cfg.exclusive = true)
    (hsz : du.length ≤ (ro p).length)
    (hled : ∀ e ∈ s.ledger, e.1 ≠ p) (hfresh : committed s p = false)
    (hne : ro p ≠ []) (h : arrange cfg ro du s p = .ok (r, s')) :
    (periodUsers s' p).Nodup := by
  obtain ⟨asg, st', hloop, -, rfl⟩ := arrange_fresh_elim hfresh hne h
  have hnd := assignLoop_snd_nodup (ro p) cfg hx du s.rotation [] [] asg st'
    (by simp) (by simp) hloop
  unfold periodUsers
  simp only [List.filter_append, List.map_append]
  rw [ledger_filter_nil hled, filter_pair_snd]
  simpa using hnd

theorem arrange_exclusive_witness :
    (periodUsers exStore1 exP1).Nodup :=
  arrange_exclusive exCfg exRosterOf exDuties exStore0 exP1 exRes1 exStore1
    rfl (by decide) (by simp [exStore0]) rfl (by decide) rfl

/-- Claim C4: the engine assigns each duty the first element of the
candidate list — the roster filtered to non-excluded users, ordered by
ascending cumulative-weight counter, ties broken by ascending distance
from the duty's rotation cursor, remaining ties by ascending user id: the
selected assignee is a candidate and its `dutyKey` is lexicographically
least among all candidates. -/
theorem selectAssignee_min (st : RotationState) (roster ex : List Nat)
    (d : Duty) (u : Nat) (h : selectAssignee st roster ex d = some u) :
    u ∈ candidates roster ex ∧
      ∀ v ∈ candidates roster ex,
        keyLe (dutyKey st roster d u) (dutyKey st roster d v) := by
  unfold selectAssignee at h
  exact ⟨pickMin_mem h, pickMin_le h⟩

theorem selectAssignee_min_witness :
    1 ∈ candidates [1, 2, 3] [] ∧
      keyLe (dutyKey rotation0 [1, 2, 3] kitchen 1)
        (dutyKey rotation0 [1, 2, 3] kitchen 2) := by
  have h := selectAssignee_min rotation0 [1, 2, 3] [] kitchen 1 rfl
  exact ⟨h.1, h.2 2 (by decide)⟩

/-- Claim C5: with roster [A, B, C] (ids 1, 2, 3), duties kitchen and
bathroom, and absent rotation state, arranging (2024, 1) yields
kitchen ↦ A and bathroom ↦ B; arranging (2024, 2) next with the same
roster yields kitchen ↦ C and bathroom ↦ A; after each commit every
assigned duty's cursor has advanced (wrapping) to the roster position
following its assignee, and the duty's weight has been added to the
assignee's cumulative counter. -/
theorem rotation_example :
    exRes1.assignments = [(kitchen.id, 1), (bathroom.id, 2)] ∧
    exRes2.assignments = [(kitchen.id, 3), (bathroom.id, 1)] ∧
    exStore1.rotation.cursor kitchen.id = 1 ∧
    exStore1.rotation.cursor bathroom.id = 2 ∧
    exStore1.rotation.counter 1 = 1 ∧
    exStore1.rotation.counter 2 = 1 ∧
    exStore1.rotation.counter 3 = 0 ∧
    exStore2.rotation.cursor kitchen.id = 0 ∧
    exStore2.rotation.cursor bathroom.id = 1 ∧
    exStore2.rotation.counter 1 = 2 ∧
    exStore2.rotation.counter 2 = 1 ∧
    exStore2.rotation.counter 3 = 1 :=
  ⟨rfl, rfl, rfl, rfl, rfl, rfl, rfl, rfl, rfl, rfl, rfl, rfl⟩

/-- Claim C6: on an uncommitted period, an empty roster makes arrange fail
with the insufficient-roster ("no eligible users") condition, and a
non-empty roster outnumbered by the duty catalog under the exclusivity
policy makes it fail with the unsatisfiable condition rather than relaxing
the constraint; in both cases the call returns a typed error and no
successor store, so neither ledger nor rotation state nor arrangement
records are mutated. -/
theorem arrange_failure_conditions (cfg : Config) (ro : Period → List Nat)
    (du : List Duty) (s : Store) (p : Period)
    (hfresh : committed s p = false) :
    (ro p = [] → arrange cfg ro du s p = .error .insufficientRoster) ∧
    (ro p ≠ [] → cfg.exclusive = true → (ro p).length < du.length →
      arrange cfg ro du s p = .error .unsatisfiable) := by
  constructor
  · intro hroster
    unfold arrange
    rw [if_neg (by simp [hfresh])]
    unfold computeAssignments
    rw [if_pos (by simp [hroster])]
  · intro hne hx hlt
    unfold arrange
    rw [if_neg (by simp [hfresh])]
    unfold computeAssignments
    rw [if_neg (by simpa using hne), if_pos (by simp [hx, hlt])]

theorem arrange_failure_witness :
    arrange exCfg emptyRosterOf exDuties exStore0 exP1 =
      .error .insufficientRoster :=
  (arrange_failure_conditions exCfg emptyRosterOf exDuties exStore0 exP1
    rfl).1 rfl

/-- Claim C7: whenever a duty's rotation cursor is used during arrangement
it is first re-derived modulo the current roster length, so for any stored
cursor value (for instance one set against a larger roster that has since
shrunk) and any non-empty roster, the effective cursor is a valid roster
index and the roster lookup at it succeeds — no out-of-bounds dereference
occurs. -/
theorem effectiveCursor_in_bounds (st : RotationState) (roster : List Nat)
    (d : Duty) (hne : roster ≠ []) :
    effectiveCursor st roster d < roster.length ∧
      (roster.get? (effectiveCursor st roster d)).isSome = true := by
  have hlen : 0 < roster.length := List.length_pos.mpr hne
  have h : effectiveCursor st roster d < roster.length :=
    Nat.mod_lt (st.cursor d.id) hlen
  refine ⟨h, ?_⟩
  rw [List.get?_eq_get h]
  rfl

theorem effectiveCursor_witness :
    effectiveCursor rotation0 [1, 2, 3] kitchen <
        ([1, 2, 3] : List Nat).length ∧
      (([1, 2, 3] : List Nat).get?
        (effectiveCursor rotation0 [1, 2, 3] kitchen)).isSome = true :=
  effectiveCursor_in_bounds rotation0 [1, 2, 3] kitchen (by decide)

end CleaningDuty

namespace Routes

/-- Claim C8 as stated is false on the documented route surface: the
arrange route is registered with swagger responses 200 and 500 only, so
the claimed 400 (invalid period) and 409 (unsatisfiable / insufficient
roster) failure responses are not part of the documented operation. -/
theorem arrange_route_counterexample :
    ¬ (∀ r ∈ routes, r.method = Method.post →
        r.path = "/api/cleaning-duties/arrange" →
        400 ∈ r.responses ∧ 409 ∈ r.responses) := by
  intro hall
  have h := hall ⟨.post, "/api/cleaning-duties/arrange", [200, 500]⟩
    (by decide) rfl rfl
  exact absurd h.1 (by decide)

/-- Claim C8 (amended): the arrange operation is triggered by
`POST /api/cleaning-duties/arrange`; its path carries no parameter, so it
targets only the implicit current period, and its documented responses are
exactly 200 (success) and 500 (internal server error) — no 400 or 409
response is documented. -/
theorem arrange_route_amended :
    routes.filter
        (fun r => decide (r.path = "/api/cleaning-duties/arrange")) =
      [⟨Method.post, "/api/cleaning-duties/arrange", [200, 500]⟩] ∧
    ("/api/cleaning-duties/arrange".data.contains ':') = false := by
  exact ⟨rfl, rfl⟩

/-- Claim C10: the documented route surface has exactly two cleaning-duty
operations — `POST /api/cleaning-duties/arrange`, whose path has no
parameter segment (so arrangement always targets the implicit current
period), and `GET /api/cleaning-duties/:year/:month` — and the only
non-GET route under the cleaning-duties prefix is that arrange route, so
no reArrange or override operation exists through which a committed period
could be superseded or mutated. -/
theorem cleaning_route_surface :
    routes.filter
        (fun r => "/api/cleaning-duties".data.isPrefixOf r.path.data) =
      [⟨Method.post, "/api/cleaning-duties/arrange", [200, 500]⟩,
       ⟨Method.get, "/api/cleaning-duties/:year/:month", [200, 400, 500]⟩] ∧
    ("/api/cleaning-duties/arrange".data.contains ':') = false ∧
    (∀ r ∈ routes, r.method ≠ Method.get →
      "/api/cleaning-duties".data.isPrefixOf r.path.data = true →
      r = ⟨Method.post, "/api/cleaning-duties/arrange", [200, 500]⟩) := by
  refine ⟨rfl, rfl, ?_⟩
  decide

end Routes
